import Mathlib

set_option maxRecDepth 100000
set_option maxHeartbeats 4000000

/-!
Verification of the PetCare evidence repository's append-only, hash-chained
audit ledger model (AUDIT_HASH_CHAIN_MODEL.md, PROD_AUDIT_APPEND_ONLY_SPEC.md)
and of the closure-zip verification scripts and dashboard helpers.

The ledger core (canonicalizer, appender, verifier) is exercised by the
closure-pack scripts, but its implementation file
FND/CODE_SCAFFOLD/storage/audit_bundle_verifier.py is not part of the
source tree; those components are modelled from the specification documents.
The closure-zip scripts (petcare_verify_closure_zip.sh,
petcare_ph44_verify_ph43b_zip.sh) and the dashboard helper
getVerificationStatus are embedded from their sources.
-/

/-- Modelled from the spec: a JSON-serializable value as accepted by the
canonicalizer. Numbers are integers (the model forbids NaN/Infinity but we
keep constructors for them so that their rejection is expressible; finite
non-integral floats play no role in the record model). Objects are ordered
association lists; arrays preserve order. Cyclic values are not
representable in this inductive type. -/
inductive Json where
  | null
  | bool (b : Bool)
  | int (n : Int)
  | nan
  | inf (neg : Bool)
  | str (s : String)
  | arr (elems : List Json)
  | obj (fields : List (String × Json))

/-- Modelled from the spec: the error raised when a value is not
representable deterministically. In this model the only representable
offending values are the non-finite numbers NaN and ±Infinity (cyclic
references and unsupported host types cannot be constructed in `Json`). -/
inductive CanonicalizationError where
  | nonFiniteNumber
deriving Repr, DecidableEq

/-- JSON escaping of the characters of a string (minimal model: quote and
backslash are escaped; other characters are passed through). -/
def escChars : List Char → List Char
  | [] => []
  | c :: cs =>
      if c = '"' then '\\' :: '"' :: escChars cs
      else if c = '\\' then '\\' :: '\\' :: escChars cs
      else c :: escChars cs

/-- JSON string literal in canonical form. -/
def quoteString (s : String) : String :=
  String.mk ('"' :: (escChars s.data ++ ['"']))

/-- Lexicographic comparison of character lists (code-point order),
Bool-valued so that it evaluates inside the kernel. -/
def strLebAux : List Char → List Char → Bool
  | [], _ => true
  | _ :: _, [] => false
  | a :: as, b :: bs => if a = b then strLebAux as bs else decide (a < b)

/-- Lexicographic order on strings used to sort object keys. -/
def strLeb (a b : String) : Bool := strLebAux a.data b.data

/-- Key order on already-serialized object fields: compare keys only. -/
def keyLe (a b : String × String) : Prop := strLeb a.1 b.1 = true

instance : DecidableRel keyLe := fun a b =>
  inferInstanceAs (Decidable (strLeb a.1 b.1 = true))

/-- Object fields sorted lexicographically by key (insertion sort keeps the
definition structurally recursive and stable). -/
def sortFields (l : List (String × String)) : List (String × String) :=
  l.insertionSort keyLe

/-- Strict key order: key-le together with distinct keys. -/
def keyLt (a b : String × String) : Prop := keyLe a b ∧ a.1 ≠ b.1

/-- Single deterministic separator between array elements / object members. -/
def joinComma (l : List String) : String :=
  String.intercalate "," l

mutual

/-- Modelled from the spec: `canonicalize(obj) -> bytes` of §4.1, the missing
canonicalizer of audit_bundle_verifier.py. Deterministic canonical JSON:
object keys sorted lexicographically at every nesting level, arrays kept in
order, no insignificant whitespace, integers without a decimal point, and a
`CanonicalizationError` for non-finite numbers instead of silent coercion. -/
def canonicalize : Json → Except CanonicalizationError String
  | .null => .ok "null"
  | .bool b => .ok (cond b "true" "false")
  | .int n => .ok (toString n)
  | .nan => .error .nonFiniteNumber
  | .inf _ => .error .nonFiniteNumber
  | .str s => .ok (quoteString s)
  | .arr es =>
      match canonArr es with
      | .error e => .error e
      | .ok ss => .ok ("[" ++ joinComma ss ++ "]")
  | .obj fs =>
      match canonObj fs with
      | .error e => .error e
      | .ok ps =>
          .ok ("\x7b" ++ joinComma ((sortFields ps).map (fun p => quoteString p.1 ++ ":" ++ p.2)) ++ "\x7d")

/-- Canonical serialization of the elements of an array, in order. -/
def canonArr : List Json → Except CanonicalizationError (List String)
  | [] => .ok []
  | j :: js =>
      match canonicalize j with
      | .error e => .error e
      | .ok s =>
          match canonArr js with
          | .error e => .error e
          | .ok ss => .ok (s :: ss)

/-- Serialization of object members: each value is canonicalized, keys kept
with their serialized values (sorting happens at the object node). -/
def canonObj : List (String × Json) → Except CanonicalizationError (List (String × String))
  | [] => .ok []
  | (k, v) :: fs =>
      match canonicalize v with
      | .error e => .error e
      | .ok s =>
          match canonObj fs with
          | .error e => .error e
          | .ok ps => .ok ((k, s) :: ps)

end

/-!
SHA-256 (FIPS 180-4) over the UTF-8 bytes of the canonical serialization,
as used for `record_hash`/`prev_hash`. Implemented with structural and
tail recursion over `Nat` so concrete digests evaluate inside the kernel.
-/

/-- Mask to 32 bits. -/
def w32 (n : Nat) : Nat := n % 4294967296

/-- 32-bit right rotation. -/
def rotr32 (n x : Nat) : Nat := w32 ((x >>> n) ||| (x <<< (32 - n)))

def bsig0 (x : Nat) : Nat := (rotr32 2 x) ^^^ (rotr32 13 x) ^^^ (rotr32 22 x)
def bsig1 (x : Nat) : Nat := (rotr32 6 x) ^^^ (rotr32 11 x) ^^^ (rotr32 25 x)
def ssig0 (x : Nat) : Nat := (rotr32 7 x) ^^^ (rotr32 18 x) ^^^ (x >>> 3)
def ssig1 (x : Nat) : Nat := (rotr32 17 x) ^^^ (rotr32 19 x) ^^^ (x >>> 10)
def chFn (x y z : Nat) : Nat := (x &&& y) ^^^ ((x ^^^ 4294967295) &&& z)
def majFn (x y z : Nat) : Nat := (x &&& y) ^^^ (x &&& z) ^^^ (y &&& z)

/-- The SHA-256 round constants (FIPS 180-4 §4.2.2). -/
def K256 : List Nat :=
  [1116352408, 1899447441, 3049323471, 3921009573,
   961987163, 1508970993, 2453635748, 2870763221,
   3624381080, 310598401, 607225278, 1426881987,
   1925078388, 2162078206, 2614888103, 3248222580,
   3835390401, 4022224774, 264347078, 604807628,
   770255983, 1249150122, 1555081692, 1996064986,
   2554220882, 2821834349, 2952996808, 3210313671,
   3336571891, 3584528711, 113926993, 338241895,
   666307205, 773529912, 1294757372, 1396182291,
   1695183700, 1986661051, 2177026350, 2456956037,
   2730485921, 2820302411, 3259730800, 3345764771,
   3516065817, 3600352804, 4094571909, 275423344,
   430227734, 506948616, 659060556, 883997877,
   958139571, 1322822218, 1537002063, 1747873779,
   1955562222, 2024104815, 2227730452, 2361852424,
   2428436474, 2756734187, 3204031479, 3329325298]

/-- The SHA-256 working state (eight 32-bit words). -/
structure Hash8 where
  a : Nat
  b : Nat
  c : Nat
  d : Nat
  e : Nat
  f : Nat
  g : Nat
  h : Nat

/-- Initial hash value (FIPS 180-4 §5.3.3). -/
def initH : Hash8 :=
  ⟨1779033703, 3144134277, 1013904242, 2773480762,
   1359893119, 2600822924, 528734635, 1541459225⟩

/-- One compression round. -/
def roundFn (s : Hash8) (kw : Nat × Nat) : Hash8 :=
  let t1 := w32 (s.h + bsig1 s.e + chFn s.e s.f s.g + kw.1 + kw.2)
  let t2 := w32 (bsig0 s.a + majFn s.a s.b s.c)
  ⟨w32 (t1 + t2), s.a, s.b, s.c, w32 (s.d + t1), s.e, s.f, s.g⟩

/-- Extend the 16 message words to 64 (message schedule). Carries the most
recent sixteen words newest-first (so the four taps are short lookups) and
accumulates the whole schedule newest-first in `out`. -/
def extendW : Nat → List Nat → List Nat → List Nat
  | 0, _, out => out.reverse
  | n + 1, recent, out =>
      let w := w32 (ssig1 (recent.getD 1 0) + recent.getD 6 0 +
        ssig0 (recent.getD 14 0) + recent.getD 15 0)
      extendW n (w :: recent.take 15) (w :: out)

/-- Process one 16-word block. -/
def processBlock (s : Hash8) (block : List Nat) : Hash8 :=
  let w := extendW 48 block.reverse block.reverse
  let t := (K256.zip w).foldl roundFn s
  ⟨w32 (s.a + t.a), w32 (s.b + t.b), w32 (s.c + t.c), w32 (s.d + t.d),
   w32 (s.e + t.e), w32 (s.f + t.f), w32 (s.g + t.g), w32 (s.h + t.h)⟩

/-- UTF-8 encoding of one character (byte values). -/
def utf8Bytes (c : Char) : List Nat :=
  let n := c.toNat
  if n < 128 then [n]
  else if n < 2048 then [192 ||| (n >>> 6), 128 ||| (n &&& 63)]
  else if n < 65536 then
    [224 ||| (n >>> 12), 128 ||| ((n >>> 6) &&& 63), 128 ||| (n &&& 63)]
  else
    [240 ||| (n >>> 18), 128 ||| ((n >>> 12) &&& 63), 128 ||| ((n >>> 6) &&& 63), 128 ||| (n &&& 63)]

/-- UTF-8 bytes of a string. -/
def strBytesAux : List Char → List Nat
  | [] => []
  | c :: cs => utf8Bytes c ++ strBytesAux cs

def strBytes (s : String) : List Nat := strBytesAux s.data

/-- Big-endian bytes of `n`, `width` bytes wide. -/
def beBytes : Nat → Nat → List Nat
  | _, 0 => []
  | n, w + 1 => beBytes (n >>> 8) w ++ [n &&& 255]

/-- SHA-256 message padding: append 0x80, zeros to 56 mod 64, then the
64-bit big-endian bit length. -/
def padMsg (msg : List Nat) : List Nat :=
  let l := msg.length
  let k := (64 + 55 - l % 64) % 64
  msg ++ [128] ++ List.replicate k 0 ++ beBytes (8 * l) 8

/-- Pack bytes into big-endian 32-bit words. -/
def toWords : List Nat → List Nat
  | b0 :: b1 :: b2 :: b3 :: rest =>
      ((((b0 <<< 8) ||| b1) <<< 16) ||| ((b2 <<< 8) ||| b3)) :: toWords rest
  | _ => []

/-- Split a word list into 16-word blocks. -/
def toBlocks : List Nat → List (List Nat)
  | w0 :: w1 :: w2 :: w3 :: w4 :: w5 :: w6 :: w7 :: w8 :: w9 :: w10 :: w11 :: w12 :: w13 :: w14 :: w15 :: rest =>
      [w0, w1, w2, w3, w4, w5, w6, w7, w8, w9, w10, w11, w12, w13, w14, w15] :: toBlocks rest
  | _ => []

/-- Hex digit character. -/
def hexDigit (n : Nat) : Char :=
  if n < 10 then Char.ofNat (48 + n) else Char.ofNat (87 + n)

/-- Eight hex digits of a 32-bit word (big-endian nibbles). -/
def hexWord (n : Nat) : List Char :=
  [hexDigit ((n >>> 28) &&& 15), hexDigit ((n >>> 24) &&& 15),
   hexDigit ((n >>> 20) &&& 15), hexDigit ((n >>> 16) &&& 15),
   hexDigit ((n >>> 12) &&& 15), hexDigit ((n >>> 8) &&& 15),
   hexDigit ((n >>> 4) &&& 15), hexDigit (n &&& 15)]

/-- SHA-256 of a string (UTF-8 bytes), as 64 lowercase hex characters. -/
def sha256hex (s : String) : String :=
  let f := (toBlocks (toWords (padMsg (strBytes s)))).foldl processBlock initH
  String.mk (hexWord f.a ++ hexWord f.b ++ hexWord f.c ++ hexWord f.d ++
    hexWord f.e ++ hexWord f.f ++ hexWord f.g ++ hexWord f.h)

/-- Sentinel `prev_hash` of the first record: 64 zero characters. -/
def zeros64 : String :=
  "0000000000000000000000000000000000000000000000000000000000000000"

/-- Modelled from the spec: one audit entry (§3 Record). -/
structure Record where
  seq : Nat
  timestamp_utc : String
  tenant_id : String
  actor_id : String
  actor_role : String
  event_type : String
  payload : Json
  prev_hash : String
  record_hash : String

/-- Application-supplied fields of a new record (everything the appender
does not compute itself). -/
structure AppendFields where
  timestamp_utc : String
  tenant_id : String
  actor_id : String
  actor_role : String
  event_type : String
  payload : Json

/-- Modelled from the spec: the record as a JSON object with `record_hash`
itself omitted — the input of the content-hash computation. -/
def recordJsonSansHash (r : Record) : Json :=
  .obj [("seq", .int r.seq), ("timestamp_utc", .str r.timestamp_utc),
        ("tenant_id", .str r.tenant_id), ("actor_id", .str r.actor_id),
        ("actor_role", .str r.actor_role), ("event_type", .str r.event_type),
        ("payload", r.payload), ("prev_hash", .str r.prev_hash)]

/-- Recompute a record's content hash; `none` when canonicalization fails. -/
def computeRecordHash (r : Record) : Option String :=
  match canonicalize (recordJsonSansHash r) with
  | .ok c => some (sha256hex c)
  | .error _ => none

/-- Modelled from the spec: `AppendError` (§7) — the appender refuses to
extend a chain whose tip it cannot validate locally, and propagates
canonicalization failures. -/
inductive AppendError where
  | inconsistentState
  | canonicalizationFailed (e : CanonicalizationError)
deriving Repr, DecidableEq

/-- Shared tail of `append`: assemble the record from the last `seq` and
`record_hash` (or the empty-ledger sentinel), compute its content hash, and
persist it as the new tail. -/
def mkAppend (l : List Record) (lastSeq : Nat) (prevHash : String)
    (f : AppendFields) : Except AppendError (List Record) :=
  let r0 : Record :=
    { seq := lastSeq + 1, timestamp_utc := f.timestamp_utc,
      tenant_id := f.tenant_id, actor_id := f.actor_id,
      actor_role := f.actor_role, event_type := f.event_type,
      payload := f.payload, prev_hash := prevHash, record_hash := "" }
  match canonicalize (recordJsonSansHash r0) with
  | .error e => .error (.canonicalizationFailed e)
  | .ok c => .ok (l ++ [{ r0 with record_hash := sha256hex c }])

/-- Modelled from the spec: `append(ledger_state, fields) -> Record` (§4.2):
seq = last seq + 1 (1 on empty), prev_hash = last record_hash (64 zeros on
empty), record_hash = SHA-256 of the canonical record without record_hash;
defensive local-consistency check on the supplied tip. -/
def append (l : List Record) (f : AppendFields) : Except AppendError (List Record) :=
  match l.getLast? with
  | some lr =>
      if computeRecordHash lr = some lr.record_hash then
        mkAppend l lr.seq lr.record_hash f
      else .error .inconsistentState
  | none => mkAppend l 0 zeros64 f

/-- Modelled from the spec: the verifier's failure taxonomy. -/
inductive FailureKind where
  | SEQ_MISMATCH
  | PREV_HASH_MISMATCH
  | RECORD_HASH_MISMATCH
deriving Repr, DecidableEq

/-- Modelled from the spec: the verification report — either `VALID` with
`record_count` and `root_hash` (absent for the empty ledger), or `INVALID`
with the failure kind and the 1-based position of first detection. -/
inductive VerificationResult where
  | valid (record_count : Nat) (root_hash : Option String)
  | invalid (kind : FailureKind) (position : Nat)
deriving Repr, DecidableEq

/-- Modelled from the spec: the three checks run at 1-based position `i`
in their fixed order — seq, then prev_hash (against the previous record's
stored hash, `none` meaning position 1), then record_hash — classifying the
first violated check. -/
def classifyAt (prev : Option String) (i : Nat) (r : Record) : Option FailureKind :=
  if r.seq ≠ i then some .SEQ_MISMATCH
  else if r.prev_hash ≠ prev.getD zeros64 then some .PREV_HASH_MISMATCH
  else if computeRecordHash r ≠ some r.record_hash then some .RECORD_HASH_MISMATCH
  else none

/-- The verifier's scan: positions `i, i+1, ...`, carrying the previously
verified record's stored hash; stops at the first violation. -/
def verifyGo (prev : Option String) (i : Nat) : List Record → VerificationResult
  | [] => .valid (i - 1) prev
  | r :: rest =>
      match classifyAt prev i r with
      | some k => .invalid k i
      | none => verifyGo (some r.record_hash) (i + 1) rest

/-- Modelled from the spec: `verify(records) -> VerificationResult` (§4.3). -/
def verify (records : List Record) : VerificationResult :=
  verifyGo none 1 records


/-- Chains reachable from the empty ledger by `n` successive successful
calls to `append` (the "n successive successful appends" of the spec's
round-trip property). -/
inductive Built : Nat → List Record → Prop where
  | nil : Built 0 []
  | step {n : Nat} {l l' : List Record} {f : AppendFields} :
      Built n l → append l f = .ok l' → Built (n + 1) l'

/-- Fixed application fields used by the concrete witnesses. -/
def demoFields (ev : String) : AppendFields :=
  { timestamp_utc := "20260101T000000Z", tenant_id := "t1",
    actor_id := "a1", actor_role := "admin", event_type := ev,
    payload := .obj [("id", .int 1)] }

/-- A concrete valid five-record chain; each `record_hash` is the SHA-256
of the record's canonical serialization and each `prev_hash` copies the
previous digest (checked by the witnesses below by evaluation). -/
def fiveChain : List Record := [
  { seq := 1, timestamp_utc := "20260101T000000Z",
    tenant_id := "t1", actor_id := "a1", actor_role := "admin",
    event_type := "CREATE", payload := .obj [("id", .int 1)],
    prev_hash := "0000000000000000000000000000000000000000000000000000000000000000",
    record_hash := "8854d04598ed2b3a2b1c4b6011889d041a85a41465147a5881f1d888b970b586" },
  { seq := 2, timestamp_utc := "20260101T000000Z",
    tenant_id := "t1", actor_id := "a1", actor_role := "admin",
    event_type := "UPDATE", payload := .obj [("id", .int 1)],
    prev_hash := "8854d04598ed2b3a2b1c4b6011889d041a85a41465147a5881f1d888b970b586",
    record_hash := "32d68e95cd3a7f3e36e3ea886d4da231833576cd4bf900587819b4a24ca33488" },
  { seq := 3, timestamp_utc := "20260101T000000Z",
    tenant_id := "t1", actor_id := "a1", actor_role := "admin",
    event_type := "APPROVE", payload := .obj [("id", .int 1)],
    prev_hash := "32d68e95cd3a7f3e36e3ea886d4da231833576cd4bf900587819b4a24ca33488",
    record_hash := "a409d4e841f1682c62a1e0021ad33cae78efe3a060e7d62b64a64d795c2d59cf" },
  { seq := 4, timestamp_utc := "20260101T000000Z",
    tenant_id := "t1", actor_id := "a1", actor_role := "admin",
    event_type := "SHIP", payload := .obj [("id", .int 1)],
    prev_hash := "a409d4e841f1682c62a1e0021ad33cae78efe3a060e7d62b64a64d795c2d59cf",
    record_hash := "d3424f623a4cb451fa206f5efc21c12666110b90bfc3389cb755d7ab6a50cd0f" },
  { seq := 5, timestamp_utc := "20260101T000000Z",
    tenant_id := "t1", actor_id := "a1", actor_role := "admin",
    event_type := "CLOSE", payload := .obj [("id", .int 1)],
    prev_hash := "d3424f623a4cb451fa206f5efc21c12666110b90bfc3389cb755d7ab6a50cd0f",
    record_hash := "c2439e36ce24e07c977f6b9bf6aeba2ec03485de6cd08b56036b52d5214c3ff4" }
]

def defaultRecord : Record :=
  { seq := 0, timestamp_utc := "", tenant_id := "", actor_id := "",
    actor_role := "", event_type := "", payload := .null,
    prev_hash := "", record_hash := "" }

/-- The third record of `fiveChain`. -/
def fiveRec3 : Record := (fiveChain.get? 2).getD defaultRecord

/-- The third record with its `payload` field edited and `record_hash`
deliberately not recomputed. -/
def fiveRec3T : Record := { fiveRec3 with payload := .str "TAMPERED" }

/-- A record whose `seq` field is wrong for position 1. -/
def badSeqRecord : Record := { defaultRecord with seq := 2 }

instance {ε α : Type} [DecidableEq ε] [DecidableEq α] : DecidableEq (Except ε α) := fun a b =>
  match a, b with
  | .ok x, .ok y =>
      if h : x = y then .isTrue (by rw [h])
      else .isFalse (by intro hc; cases hc; exact h rfl)
  | .error x, .error y =>
      if h : x = y then .isTrue (by rw [h])
      else .isFalse (by intro hc; cases hc; exact h rfl)
  | .ok _, .error _ => .isFalse (by intro hc; cases hc)
  | .error _, .ok _ => .isFalse (by intro hc; cases hc)

mutual

/-- Whether a value contains a non-finite number (NaN or ±Infinity)
anywhere. -/
def hasNonFinite : Json → Bool
  | .null => false
  | .bool _ => false
  | .int _ => false
  | .nan => true
  | .inf _ => true
  | .str _ => false
  | .arr es => hasNonFiniteArr es
  | .obj fs => hasNonFiniteObj fs

def hasNonFiniteArr : List Json → Bool
  | [] => false
  | j :: js => hasNonFinite j || hasNonFiniteArr js

def hasNonFiniteObj : List (String × Json) → Bool
  | [] => false
  | (_, v) :: fs => hasNonFinite v || hasNonFiniteObj fs

end

/-- One line of output of the closure_sha256 verify loop of
petcare_verify_closure_zip.sh: a listed file that is missing (or
unreadable) is reported as `MISSING_FILE`, a present file whose recomputed
SHA-256 differs from the listed digest as `HASH_MISMATCH`. -/
inductive FileIssue where
  | missingFile (rel : String)
  | hashMismatch (rel : String) (want got : String)
deriving Repr, DecidableEq

/-- The check the loop body performs for one `(rel, digest)` entry of
closure_sha256.txt; `digestOf` abstracts the filesystem: `none` when
`os.path.isfile` fails, otherwise the file's recomputed SHA-256. -/
def issueFor (digestOf : String → Option String)
    (entry : String × String) : Option FileIssue :=
  match digestOf entry.1 with
  | none => some (.missingFile entry.1)
  | some got => if got ≠ entry.2 then some (.hashMismatch entry.1 entry.2 got) else none

/-- All issues reported by the verify loop over the want-list. -/
def closureIssues (digestOf : String → Option String)
    (want : List (String × String)) : List FileIssue :=
  want.filterMap (issueFor digestOf)

/-- Modelled from the spec: the distinct error class for storage failures
during `verify` (file unreadable, bundle unparsable). -/
inductive BundleReadError where
  | unreadable
  | unparsable
deriving Repr, DecidableEq

/-- Modelled from the spec: verification of a bundle read from storage —
a read/parse failure propagates as `BundleReadError` and never reaches the
verifier, so it can never surface as a content-integrity classification. -/
def verifyBundle (readResult : Except BundleReadError (List Record)) :
    Except BundleReadError VerificationResult :=
  readResult.map verify

/-- Python's `name.startswith("/")`. -/
def startsWithSlash (s : String) : Bool :=
  match s.data with
  | [] => false
  | c :: _ => decide (c = '/')

/-- Python's `name.split("/")` (keeps empty segments, as Python does). -/
def splitSegsAux : List Char → List Char → List String
  | [], acc => [String.mk acc.reverse]
  | c :: cs, acc =>
      if c = '/' then String.mk acc.reverse :: splitSegsAux cs []
      else splitSegsAux cs (c :: acc)

def splitSegs (s : String) : List String := splitSegsAux s.data []

/-- The zip-extraction guard of petcare_verify_closure_zip.sh and
petcare_ph44_verify_ph43b_zip.sh: a member name is rejected when it starts
with "/" or has ".." as a path segment. -/
def traversalRisk (name : String) : Bool :=
  startsWithSlash name || (splitSegs name).contains ".."

/-- The EXTRACT (SAFE) block: scan every member name first and abort with
exit code 10 — extracting nothing — if any is rejected; otherwise extract
all members (into the work directory). -/
def extractAll (names : List String) : Except Nat (List String) :=
  if names.any traversalRisk then .error 10 else .ok names

/-- One step of resolving a path segment against an accumulated directory
path: empty and "." segments are no-ops, ".." pops, anything else descends. -/
def resolveStep (acc : List String) (seg : String) : List String :=
  if seg = "" ∨ seg = "." then acc
  else if seg = ".." then acc.dropLast
  else acc ++ [seg]

/-- Where a member named `name` lands when extracted under `work`. -/
def resolveUnder (work : List String) (name : String) : List String :=
  (splitSegs name).foldl resolveStep work

/-- The SIDECAR_MATCH computation of petcare_verify_closure_zip.sh: with no
sidecar file, the sentinel "(no_sidecar)"; with a sidecar carrying digest
`want`, "true" when it equals the recomputed zip digest, else "false". -/
def sidecarMatch (zipSha : String) : Option String → String
  | none => "(no_sidecar)"
  | some want => if want = zipSha then "true" else "false"

/-- The OVERALL_PASS conjunction at the end of the script: starts at
"true" and is forced to "false" by SIDECAR_MATCH = "false", by a failed
closure_sha256 verification, or by a failed manifest-file check. -/
def overallPass (sidecar verifyHashOk filesOk : String) : String :=
  let p0 := "true"
  let p1 := if sidecar = "false" then "false" else p0
  let p2 := if verifyHashOk ≠ "true" then "false" else p1
  let p3 := if filesOk ≠ "true" then "false" else p2
  p3

/-- A JavaScript value as far as `file.verified` is concerned: a boolean,
null, undefined (also the absent field), a number or a string. Strict
equality `===` on these values is plain equality in the model. -/
inductive JSValue where
  | jsBool (b : Bool)
  | jsNull
  | jsUndefined
  | jsNum (n : Int)
  | jsStr (s : String)
deriving Repr, DecidableEq

/-- The E1 checksum-status mapping `getVerificationStatus` of the
dashboard's api.js: `verified === true` → "OK", `verified === false` →
"FAIL", anything else → "MISSING". -/
def getVerificationStatus (verified : JSValue) : String :=
  if verified = .jsBool true then "OK"
  else if verified = .jsBool false then "FAIL"
  else "MISSING"

lemma classifyAt_none_iff (prev : Option String) (i : Nat) (r : Record) :
    classifyAt prev i r = none ↔
      r.seq = i ∧ r.prev_hash = prev.getD zeros64 ∧
      computeRecordHash r = some r.record_hash := by
  unfold classifyAt
  by_cases h1 : r.seq = i
  · by_cases h2 : r.prev_hash = prev.getD zeros64
    · by_cases h3 : computeRecordHash r = some r.record_hash
      · simp [h1, h2, h3]
      · simp [h1, h2, h3]
    · simp [h1, h2]
  · simp [h1]

lemma verifyGo_append_ok (rs₂ : List Record) :
    ∀ (rs : List Record) (prev : Option String) (i m : Nat) (p : Option String),
      1 ≤ i → verifyGo prev i rs = .valid m p →
      verifyGo prev i (rs ++ rs₂) = verifyGo p (m + 1) rs₂ := by
  intro rs
  induction rs with
  | nil =>
      intro prev i m p hi h
      simp only [verifyGo] at h
      cases h
      have hm : i - 1 + 1 = i := by omega
      rw [hm]
      rfl
  | cons r rs ih =>
      intro prev i m p hi h
      simp only [verifyGo] at h ⊢
      cases hc : classifyAt prev i r with
      | some k => rw [hc] at h; simp at h
      | none => rw [hc] at h; exact ih _ (i + 1) m p (by omega) h

lemma verifyGo_valid_inv :
    ∀ (rs : List Record) (prev : Option String) (i m : Nat) (p : Option String),
      1 ≤ i → verifyGo prev i rs = .valid m p →
      m + 1 = i + rs.length ∧
      ((rs = [] ∧ p = prev) ∨
       (∃ r, rs.getLast? = some r ∧ p = some r.record_hash ∧ r.seq = m)) := by
  intro rs
  induction rs with
  | nil =>
      intro prev i m p hi h
      simp only [verifyGo] at h
      cases h
      exact ⟨by simp; omega, Or.inl ⟨rfl, rfl⟩⟩
  | cons r rs ih =>
      intro prev i m p hi h
      simp only [verifyGo] at h
      cases hc : classifyAt prev i r with
      | some k => rw [hc] at h; simp at h
      | none =>
          rw [hc] at h
          obtain ⟨hlen, hdisj⟩ := ih (some r.record_hash) (i + 1) m p (by omega) h
          have hseq : r.seq = i := ((classifyAt_none_iff prev i r).mp hc).1
          refine ⟨by simp; omega, Or.inr ?_⟩
          rcases hdisj with ⟨hnil, hp⟩ | ⟨r', hlast, hp, hs⟩
          · subst hnil
            refine ⟨r, by simp, hp, ?_⟩
            simp at hlen
            omega
          · cases rs with
            | nil => simp at hlast
            | cons r2 rs2 =>
                exact ⟨r', by rw [List.getLast?_cons_cons]; exact hlast, hp, hs⟩

lemma verifyGo_valid_hash :
    ∀ (rs : List Record) (prev : Option String) (i m : Nat) (p : Option String),
      verifyGo prev i rs = .valid m p →
      ∀ r ∈ rs, computeRecordHash r = some r.record_hash := by
  intro rs
  induction rs with
  | nil => intro prev i m p _ r hr; cases hr
  | cons r0 rs ih =>
      intro prev i m p h r hr
      simp only [verifyGo] at h
      cases hc : classifyAt prev i r0 with
      | some k => rw [hc] at h; simp at h
      | none =>
          rw [hc] at h
          rcases List.mem_cons.mp hr with rfl | hmem
          · exact ((classifyAt_none_iff prev i r).mp hc).2.2
          · exact ih _ (i + 1) m p h r hmem

lemma verifyGo_split (rs₂ : List Record) :
    ∀ (rs₁ : List Record) (prev : Option String) (i m : Nat) (p : Option String),
      1 ≤ i → verifyGo prev i (rs₁ ++ rs₂) = .valid m p →
      ∃ p₁, verifyGo prev i rs₁ = .valid (i + rs₁.length - 1) p₁ ∧
        verifyGo p₁ (i + rs₁.length) rs₂ = .valid m p := by
  intro rs₁
  induction rs₁ with
  | nil =>
      intro prev i m p hi h
      refine ⟨prev, ?_, by simpa using h⟩
      simp [verifyGo]
  | cons r rs ih =>
      intro prev i m p hi h
      simp only [List.cons_append, verifyGo] at h ⊢
      cases hc : classifyAt prev i r with
      | some k => rw [hc] at h; simp at h
      | none =>
          rw [hc] at h
          obtain ⟨p₁, h1, h2⟩ := ih (some r.record_hash) (i + 1) m p (by omega) h
          have e1 : i + 1 + rs.length - 1 = i + (r :: rs).length - 1 := by
            simp only [List.length_cons]; omega
          have e2 : i + 1 + rs.length = i + (r :: rs).length := by
            simp only [List.length_cons]; omega
          rw [e1] at h1
          rw [e2] at h2
          exact ⟨p₁, h1, h2⟩

lemma verifyGo_invalid_inv :
    ∀ (rs : List Record) (prev : Option String) (i : Nat) (k : FailureKind) (j : Nat),
      1 ≤ i → verifyGo prev i rs = .invalid k j →
      i ≤ j ∧ ∃ r p, rs.get? (j - i) = some r ∧
        verifyGo prev i (rs.take (j - i)) = .valid (j - 1) p ∧
        classifyAt p j r = some k ∧
        ∀ tl, verifyGo prev i (rs.take (j - i) ++ (r :: tl)) = .invalid k j := by
  intro rs
  induction rs with
  | nil =>
      intro prev i k j hi h
      simp only [verifyGo] at h
      cases h
  | cons r rs ih =>
      intro prev i k j hi h
      simp only [verifyGo] at h
      cases hc : classifyAt prev i r with
      | some k0 =>
          rw [hc] at h
          cases h
          refine ⟨Nat.le_refl _, r, prev, ?_, ?_, ?_, ?_⟩
          · simp
          · simp [verifyGo]
          · exact hc
          · intro tl
            simp only [Nat.sub_self, List.take_zero, List.nil_append, verifyGo, hc]
      | none =>
          rw [hc] at h
          obtain ⟨hij, r', p, hget, hvalid, hcl, htl⟩ := ih (some r.record_hash) (i + 1) k j (by omega) h
          have hd : j - i = (j - (i + 1)) + 1 := by omega
          refine ⟨by omega, r', p, ?_, ?_, hcl, ?_⟩
          · rw [hd]
            simpa using hget
          · rw [hd]
            simp only [List.take_succ_cons, verifyGo, hc]
            exact hvalid
          · intro tl
            rw [hd]
            simp only [List.take_succ_cons, List.cons_append, verifyGo, hc]
            exact htl tl

lemma mkAppend_ok {l : List Record} {lastSeq : Nat} {prevHash : String}
    {f : AppendFields} {l' : List Record}
    (h : mkAppend l lastSeq prevHash f = .ok l') :
    ∃ r : Record, l' = l ++ [r] ∧ r.seq = lastSeq + 1 ∧ r.prev_hash = prevHash ∧
      computeRecordHash r = some r.record_hash := by
  simp only [mkAppend] at h
  split at h
  · cases h
  · next c heq =>
      cases h
      refine ⟨_, rfl, rfl, rfl, ?_⟩
      simp only [computeRecordHash, recordJsonSansHash]
      simp only [recordJsonSansHash] at heq
      rw [heq]

lemma append_ok {l : List Record} {f : AppendFields} {l' : List Record}
    (h : append l f = .ok l') :
    ∃ r : Record, l' = l ++ [r] ∧ computeRecordHash r = some r.record_hash ∧
      ((l.getLast? = none ∧ r.seq = 1 ∧ r.prev_hash = zeros64) ∨
       (∃ lr, l.getLast? = some lr ∧ r.seq = lr.seq + 1 ∧
         r.prev_hash = lr.record_hash)) := by
  unfold append at h
  split at h
  · next lr hlast =>
      split at h
      · obtain ⟨r, hl, hs, hp, hh⟩ := mkAppend_ok h
        exact ⟨r, hl, hh, Or.inr ⟨lr, hlast, hs, hp⟩⟩
      · cases h
  · next hlast =>
      obtain ⟨r, hl, hs, hp, hh⟩ := mkAppend_ok h
      exact ⟨r, hl, hh, Or.inl ⟨hlast, hs, hp⟩⟩

lemma built_valid {n : Nat} {l : List Record} (h : Built n l) :
    verify l = .valid n ((l.getLast?).map fun r => r.record_hash) ∧
    l.length = n := by
  induction h with
  | nil => exact ⟨rfl, rfl⟩
  | @step n l l' f hb happ ih =>
      obtain ⟨hver, hlen⟩ := ih
      obtain ⟨r, hl, hh, hdisj⟩ := append_ok happ
      subst hl
      rcases hdisj with ⟨hnone, hs, hp⟩ | ⟨lr, hsome, hs, hp⟩
      · have hnil : l = [] := List.getLast?_eq_none_iff.mp hnone
        subst hnil
        have hn : n = 0 := by simp at hlen; omega
        subst hn
        have hc : classifyAt none 1 r = none :=
          (classifyAt_none_iff none 1 r).mpr ⟨hs, by simpa using hp, hh⟩
        constructor
        · show verifyGo none 1 [r] = _
          simp [verifyGo, hc, List.getLast?_concat]
        · simp
      · rw [hsome] at hver
        simp only [Option.map] at hver
        have hver' : verifyGo none 1 l = .valid n (some lr.record_hash) := hver
        have hinv := verifyGo_valid_inv l none 1 n (some lr.record_hash)
          (by omega) hver'
        rcases hinv.2 with ⟨hnil, _⟩ | ⟨r', hlast', hp', hs'⟩
        · rw [hnil] at hsome; simp at hsome
        · rw [hsome] at hlast'
          cases hlast'
          have hc : classifyAt (some lr.record_hash) (n + 1) r = none := by
            refine (classifyAt_none_iff _ _ _).mpr ⟨?_, by simpa using hp, hh⟩
            omega
          have hstep := verifyGo_append_ok [r] l none 1 n
            (some lr.record_hash) (by omega) hver'
          constructor
          · show verifyGo none 1 (l ++ [r]) = _
            rw [hstep]
            simp [verifyGo, hc, List.getLast?_concat]
          · simp [hlen]

/-- C5: `verify` applied to the empty record sequence returns `VALID` with
`record_count = 0` and `root_hash` absent (`none`). -/
theorem verify_empty_valid : verify [] = .valid 0 none := rfl

/-- C1: appending `n` records via `append` in sequence starting from the
empty ledger (every call successful), then running `verify` over the
result, yields `VALID` with `record_count = n` and `root_hash` equal to the
last appended record's `record_hash`. -/
theorem append_verify_roundtrip (n : Nat) (l : List Record) (h : Built n l) :
    verify l = .valid n ((l.getLast?).map fun r => r.record_hash) ∧
    l.length = n :=
  built_valid h

/-- Witness for C1: two successful appends on the empty ledger produce the
first two records of `fiveChain`, and `verify` accepts them. -/
theorem append_verify_roundtrip_witness :
    verify (fiveChain.take 2) =
      .valid 2 (((fiveChain.take 2).getLast?).map fun r => r.record_hash) ∧
    (fiveChain.take 2).length = 2 :=
  append_verify_roundtrip 2 (fiveChain.take 2)
    (Built.step (Built.step Built.nil
      (show append [] (demoFields "CREATE") = .ok (fiveChain.take 1) from rfl))
      (show append (fiveChain.take 1) (demoFields "UPDATE") = .ok (fiveChain.take 2) from rfl))

/-- C2: whenever `verify` reports `INVALID` with kind `k` at position `i`,
then `i` is a 1-based position within the sequence, every record before
position `i` passes all three checks (the prefix verifies as `VALID`), the
kind `k` is exactly the first check violated at position `i` in the fixed
order seq, prev_hash, record_hash (`classifyAt`), and the result does not
depend on any record after position `i` (any tail beyond `i` yields the
same report). -/
theorem verify_first_violation (rs : List Record) (k : FailureKind) (i : Nat)
    (h : verify rs = .invalid k i) :
    1 ≤ i ∧ i ≤ rs.length ∧
    ∃ r p, rs.get? (i - 1) = some r ∧
      verify (rs.take (i - 1)) = .valid (i - 1) p ∧
      classifyAt p i r = some k ∧
      ∀ tl, verify (rs.take (i - 1) ++ (r :: tl)) = .invalid k i := by
  obtain ⟨h1, r, p, hget, hval, hcl, htl⟩ :=
    verifyGo_invalid_inv rs none 1 k i (by omega) h
  have hlt : i - 1 < rs.length := (List.get?_eq_some.mp hget).1
  exact ⟨h1, by omega, r, p, hget, hval, hcl, htl⟩

/-- Witness for C2 at a concrete input: a single record with `seq = 2` is
rejected as `SEQ_MISMATCH` at position 1, and the characterization holds. -/
theorem verify_first_violation_witness :
    1 ≤ 1 ∧ 1 ≤ [badSeqRecord].length ∧
    ∃ r p, [badSeqRecord].get? 0 = some r ∧
      verify ([badSeqRecord].take 0) = .valid 0 p ∧
      classifyAt p 1 r = some .SEQ_MISMATCH ∧
      ∀ tl, verify ([badSeqRecord].take 0 ++ (r :: tl)) =
        .invalid .SEQ_MISMATCH 1 :=
  verify_first_violation [badSeqRecord] .SEQ_MISMATCH 1 rfl

/-- C3: in a chain accepted by `verify`, replacing the record at 1-based
position `k` by a record with the same `seq`, `prev_hash` and (stale)
`record_hash` but edited content — any field edit that changes the
recomputed digest, i.e. does not collide under SHA-256 — makes `verify`
report `INVALID` with kind `RECORD_HASH_MISMATCH` exactly at position `k`. -/
theorem tamper_field_edit (l : List Record) (n : Nat) (root : Option String)
    (k : Nat) (r r' : Record)
    (hval : verify l = .valid n root)
    (hk1 : 1 ≤ k) (hget : l.get? (k - 1) = some r)
    (hseq : r'.seq = r.seq) (hprev : r'.prev_hash = r.prev_hash)
    (hhash : r'.record_hash = r.record_hash)
    (hedit : computeRecordHash r' ≠ computeRecordHash r) :
    verify (l.set (k - 1) r') = .invalid .RECORD_HASH_MISMATCH k := by
  have hlt : k - 1 < l.length := (List.get?_eq_some.mp hget).1
  have hr : l.get ⟨k - 1, hlt⟩ = r := by
    obtain ⟨h', e⟩ := List.get?_eq_some.mp hget
    simpa using e
  have hdecomp : l = l.take (k - 1) ++ (r :: l.drop k) := by
    conv_lhs => rw [← List.take_append_drop (k - 1) l]
    rw [List.drop_eq_getElem_cons hlt]
    rw [show l[k - 1] = r from hr]
    have : k - 1 + 1 = k := by omega
    rw [this]
  have hset : l.set (k - 1) r' = l.take (k - 1) ++ (r' :: l.drop k) := by
    rw [List.set_eq_take_cons_drop r' hlt]
    have : k - 1 + 1 = k := by omega
    rw [this]
  have hlen : (l.take (k - 1)).length = k - 1 := by
    rw [List.length_take]
    omega
  rw [hdecomp] at hval
  obtain ⟨p₁, hpre, hrest⟩ :=
    verifyGo_split (r :: l.drop k) (l.take (k - 1)) none 1 n root
      (by omega) hval
  rw [hlen] at hpre hrest
  have e1 : 1 + (k - 1) - 1 = k - 1 := by omega
  have e2 : 1 + (k - 1) = k := by omega
  rw [e1] at hpre
  rw [e2] at hrest
  simp only [verifyGo] at hrest
  cases hc : classifyAt p₁ k r with
  | some k0 => rw [hc] at hrest; simp at hrest
  | none =>
      obtain ⟨hseqr, hprevr, hhashr⟩ := (classifyAt_none_iff p₁ k r).mp hc
      have hfire : computeRecordHash r' ≠ some r'.record_hash := by
        rw [hhash, ← hhashr]
        exact hedit
      have hc' : classifyAt p₁ k r' = some .RECORD_HASH_MISMATCH := by
        unfold classifyAt
        rw [if_neg, if_neg, if_pos hfire]
        · rw [hprev, hprevr]
          simp
        · rw [hseq, hseqr]
          simp
      rw [hset]
      show verifyGo none 1 (l.take (k - 1) ++ (r' :: l.drop k)) = _
      rw [verifyGo_append_ok (r' :: l.drop k) (l.take (k - 1)) none 1 (k - 1) p₁ (by omega) hpre]
      have : k - 1 + 1 = k := by omega
      rw [this]
      simp only [verifyGo, hc']

/-- Witness for C3: in the concrete valid five-record chain, editing the
`payload` of record 3 without recomputing its hash is reported as
`RECORD_HASH_MISMATCH` at position 3. -/
theorem tamper_field_edit_witness :
    verify (fiveChain.set 2 fiveRec3T) = .invalid .RECORD_HASH_MISMATCH 3 :=
  tamper_field_edit fiveChain 5
    (some "c2439e36ce24e07c977f6b9bf6aeba2ec03485de6cd08b56036b52d5214c3ff4")
    3 fiveRec3 fiveRec3T
    (show verify fiveChain =
      .valid 5 (some "c2439e36ce24e07c977f6b9bf6aeba2ec03485de6cd08b56036b52d5214c3ff4") from rfl)
    (by omega) rfl rfl rfl rfl (by decide)

lemma strLebAux_total : ∀ as bs : List Char,
    strLebAux as bs = true ∨ strLebAux bs as = true := by
  intro as
  induction as with
  | nil => intro bs; exact Or.inl rfl
  | cons a as ih =>
      intro bs
      cases bs with
      | nil => exact Or.inr rfl
      | cons b bs =>
          by_cases hab : a = b
          · subst hab
            rcases ih bs with h | h
            · exact Or.inl (by simpa [strLebAux] using h)
            · exact Or.inr (by simpa [strLebAux] using h)
          · rcases lt_or_gt_of_ne (show a ≠ b from hab) with h | h
            · exact Or.inl (by simp [strLebAux, hab, h])
            · exact Or.inr (by
                have hba : b ≠ a := fun e => hab e.symm
                simp [strLebAux, hba, h])

lemma strLebAux_trans : ∀ as bs cs : List Char,
    strLebAux as bs = true → strLebAux bs cs = true → strLebAux as cs = true := by
  intro as
  induction as with
  | nil => intro bs cs _ _; rfl
  | cons a as ih =>
      intro bs cs h1 h2
      cases bs with
      | nil => simp [strLebAux] at h1
      | cons b bs =>
          cases cs with
          | nil => simp [strLebAux] at h2
          | cons c cs =>
              by_cases hab : a = b
              · subst hab
                by_cases hbc : a = c
                · subst hbc
                  simp only [strLebAux, if_pos rfl] at h1 h2 ⊢
                  exact ih bs cs h1 h2
                · simp only [strLebAux, if_pos rfl] at h1
                  simp only [strLebAux, if_neg hbc] at h2 ⊢
                  exact h2
              · simp only [strLebAux, if_neg hab] at h1
                have hab' : a < b := of_decide_eq_true h1
                by_cases hbc : b = c
                · have hac' : a < c := hbc ▸ hab'
                  have hac : a ≠ c := ne_of_lt hac'
                  simp only [strLebAux, if_neg hac]
                  exact decide_eq_true hac'
                · simp only [strLebAux, if_neg hbc] at h2
                  have hbc' : b < c := of_decide_eq_true h2
                  have hac' : a < c := lt_trans hab' hbc'
                  have hac : a ≠ c := ne_of_lt hac'
                  simp only [strLebAux, if_neg hac]
                  exact decide_eq_true hac' 

lemma strLebAux_antisymm : ∀ as bs : List Char,
    strLebAux as bs = true → strLebAux bs as = true → as = bs := by
  intro as
  induction as with
  | nil =>
      intro bs h1 h2
      cases bs with
      | nil => rfl
      | cons b bs => simp [strLebAux] at h2
  | cons a as ih =>
      intro bs h1 h2
      cases bs with
      | nil => simp [strLebAux] at h1
      | cons b bs =>
          by_cases hab : a = b
          · subst hab
            simp only [strLebAux, if_pos rfl] at h1 h2
            rw [ih bs h1 h2]
          · have hba : b ≠ a := fun e => hab e.symm
            simp only [strLebAux, if_neg hab] at h1
            simp only [strLebAux, if_neg hba] at h2
            exact absurd (of_decide_eq_true h2) (not_lt_of_gt (of_decide_eq_true h1))

lemma strLeb_antisymm {a b : String} (h1 : strLeb a b = true)
    (h2 : strLeb b a = true) : a = b := by
  cases a with
  | mk da =>
      cases b with
      | mk db =>
          exact congrArg String.mk (strLebAux_antisymm da db h1 h2)

instance : IsTotal (String × String) keyLe :=
  ⟨fun a b => strLebAux_total a.1.data b.1.data⟩

instance : IsTrans (String × String) keyLe :=
  ⟨fun a b c h1 h2 => strLebAux_trans a.1.data b.1.data c.1.data h1 h2⟩

instance : IsAntisymm (String × String) keyLt :=
  ⟨fun _ _ h1 h2 => absurd (strLeb_antisymm h1.1 h2.1) h1.2⟩

lemma sorted_keyLt_of_nodup {s : List (String × String)}
    (hs : List.Sorted keyLe s) (hn : (s.map Prod.fst).Nodup) :
    List.Sorted keyLt s := by
  have hp : List.Pairwise (fun a b : String × String => a.1 ≠ b.1) s :=
    (List.pairwise_map).mp hn
  exact (hs.and hp).imp (fun h => ⟨h.1, h.2⟩)

lemma sortFields_eq_of_perm {l₁ l₂ : List (String × String)}
    (hp : List.Perm l₁ l₂) (hn : (l₁.map Prod.fst).Nodup) :
    sortFields l₁ = sortFields l₂ := by
  have p₁ : List.Perm (sortFields l₁) l₁ := List.perm_insertionSort keyLe l₁
  have p₂ : List.Perm (sortFields l₂) l₂ := List.perm_insertionSort keyLe l₂
  have p12 : List.Perm (sortFields l₁) (sortFields l₂) :=
    (p₁.trans hp).trans p₂.symm
  have hn₁ : ((sortFields l₁).map Prod.fst).Nodup :=
    ((p₁.map Prod.fst).nodup_iff).mpr hn
  have hn₂ : ((sortFields l₂).map Prod.fst).Nodup :=
    ((p12.map Prod.fst).nodup_iff).mp hn₁
  exact List.eq_of_perm_of_sorted p12
    (sorted_keyLt_of_nodup (List.sorted_insertionSort keyLe l₁) hn₁)
    (sorted_keyLt_of_nodup (List.sorted_insertionSort keyLe l₂) hn₂)

lemma canonErr_unique (e : CanonicalizationError) : e = .nonFiniteNumber := by
  cases e
  rfl

lemma canonObj_cons_err {k : String} {v : Json} {fs : List (String × Json)}
    {e : CanonicalizationError} (h : canonicalize v = .error e) :
    canonObj ((k, v) :: fs) = .error e := by
  simp [canonObj, h]

lemma canonObj_cons_ok {k : String} {v : Json} {fs : List (String × Json)}
    {s : String} (h : canonicalize v = .ok s) :
    canonObj ((k, v) :: fs) =
      match canonObj fs with
      | .error e => .error e
      | .ok ps => .ok ((k, s) :: ps) := by
  simp [canonObj, h]

lemma canonObj_ok_map_fst :
    ∀ {t : List (String × Json)} {ps : List (String × String)},
      canonObj t = .ok ps → ps.map Prod.fst = t.map Prod.fst := by
  intro t
  induction t with
  | nil =>
      intro ps h
      cases h
      rfl
  | cons p t ih =>
      intro ps h
      obtain ⟨k, v⟩ := p
      cases hc : canonicalize v with
      | error e => rw [canonObj_cons_err hc] at h; cases h
      | ok s =>
          rw [canonObj_cons_ok hc] at h
          cases ht : canonObj t with
          | error e => rw [ht] at h; cases h
          | ok ps' =>
              rw [ht] at h
              cases h
              simpa using ih ht

lemma canonObj_perm {l₁ l₂ : List (String × Json)} (hp : List.Perm l₁ l₂) :
    (canonObj l₁ = .error .nonFiniteNumber ∧
     canonObj l₂ = .error .nonFiniteNumber) ∨
    (∃ ps₁ ps₂, canonObj l₁ = .ok ps₁ ∧ canonObj l₂ = .ok ps₂ ∧
      List.Perm ps₁ ps₂ ∧ ps₁.map Prod.fst = l₁.map Prod.fst ∧
      ps₂.map Prod.fst = l₂.map Prod.fst) := by
  induction hp with
  | nil => exact Or.inr ⟨[], [], rfl, rfl, .nil, rfl, rfl⟩
  | @cons x t₁ t₂ hp ih =>
      obtain ⟨k, v⟩ := x
      cases hc : canonicalize v with
      | error e =>
          have he := canonErr_unique e
          subst he
          exact Or.inl ⟨canonObj_cons_err hc, canonObj_cons_err hc⟩
      | ok s =>
          rcases ih with ⟨h₁, h₂⟩ | ⟨ps₁, ps₂, h₁, h₂, hperm, hm₁, hm₂⟩
          · refine Or.inl ⟨?_, ?_⟩
            · rw [canonObj_cons_ok hc, h₁]
            · rw [canonObj_cons_ok hc, h₂]
          · refine Or.inr ⟨(k, s) :: ps₁, (k, s) :: ps₂, ?_, ?_, .cons _ hperm, ?_, ?_⟩
            · rw [canonObj_cons_ok hc, h₁]
            · rw [canonObj_cons_ok hc, h₂]
            · simpa using hm₁
            · simpa using hm₂
  | @swap x y t =>
      obtain ⟨kx, vx⟩ := x
      obtain ⟨ky, vy⟩ := y
      cases hx : canonicalize vx with
      | error ex =>
          have := canonErr_unique ex
          subst this
          cases hy : canonicalize vy with
          | error ey =>
              have := canonErr_unique ey
              subst this
              exact Or.inl ⟨canonObj_cons_err hy, canonObj_cons_err hx⟩
          | ok sy =>
              refine Or.inl ⟨?_, canonObj_cons_err hx⟩
              rw [canonObj_cons_ok hy, canonObj_cons_err hx]
      | ok sx =>
          cases hy : canonicalize vy with
          | error ey =>
              have := canonErr_unique ey
              subst this
              refine Or.inl ⟨canonObj_cons_err hy, ?_⟩
              rw [canonObj_cons_ok hx, canonObj_cons_err hy]
          | ok sy =>
              cases ht : canonObj t with
              | error et =>
                  have := canonErr_unique et
                  subst this
                  refine Or.inl ⟨?_, ?_⟩
                  · rw [canonObj_cons_ok hy, canonObj_cons_ok hx, ht]
                  · rw [canonObj_cons_ok hx, canonObj_cons_ok hy, ht]
              | ok ps =>
                  refine Or.inr ⟨(ky, sy) :: (kx, sx) :: ps, (kx, sx) :: (ky, sy) :: ps,
                    ?_, ?_, .swap _ _ _, by simp [canonObj_ok_map_fst ht],
                    by simp [canonObj_ok_map_fst ht]⟩
                  · rw [canonObj_cons_ok hy, canonObj_cons_ok hx, ht]
                  · rw [canonObj_cons_ok hx, canonObj_cons_ok hy, ht]
  | trans hp₁₂ hp₂₃ ih₁ ih₂ =>
      rcases ih₁ with ⟨h₁, h₂⟩ | ⟨ps₁, ps₂, h₁, h₂, hperm, hm₁, hm₂⟩
      · rcases ih₂ with ⟨h₂', h₃⟩ | ⟨qs₂, qs₃, h₂', h₃, _, _, _⟩
        · exact Or.inl ⟨h₁, h₃⟩
        · rw [h₂] at h₂'; cases h₂'
      · rcases ih₂ with ⟨h₂', h₃⟩ | ⟨qs₂, qs₃, h₂', h₃, hperm', hm₂', hm₃⟩
        · rw [h₂] at h₂'; cases h₂'
        · rw [h₂] at h₂'
          injection h₂' with hq
          subst hq
          exact Or.inr ⟨ps₁, qs₃, h₁, h₃, hperm.trans hperm', hm₁, hm₃⟩

/-- C4: canonicalization is deterministic — a pure function of its input
(repeated calls agree), and independent of the order in which object
members are supplied (for well-formed objects with distinct keys, any
permutation of the members canonicalizes to byte-identical output, which is
what makes two conforming implementations with different map iteration
orders agree). -/
theorem canonicalize_deterministic :
    (∀ x : Json, canonicalize x = canonicalize x) ∧
    (∀ l₁ l₂ : List (String × Json), List.Perm l₁ l₂ →
      (l₁.map Prod.fst).Nodup →
      canonicalize (.obj l₁) = canonicalize (.obj l₂)) := by
  refine ⟨fun _ => rfl, fun l₁ l₂ hp hn => ?_⟩
  rcases canonObj_perm hp with ⟨h₁, h₂⟩ | ⟨ps₁, ps₂, h₁, h₂, hperm, hm₁, hm₂⟩
  · simp [canonicalize, h₁, h₂]
  · have hs : sortFields ps₁ = sortFields ps₂ :=
      sortFields_eq_of_perm hperm (by rw [hm₁]; exact hn)
    simp [canonicalize, h₁, h₂, hs]

/-- Witness for C4: the same two-member object presented in two different
member orders canonicalizes identically. -/
theorem canonicalize_deterministic_witness :
    canonicalize (.obj [("b", .int 1), ("a", .str "x")]) =
      canonicalize (.obj [("a", .str "x"), ("b", .int 1)]) :=
  canonicalize_deterministic.2 [("b", .int 1), ("a", .str "x")]
    [("a", .str "x"), ("b", .int 1)]
    (List.Perm.swap ("a", Json.str "x") ("b", Json.int 1) [])
    (by decide)

mutual

lemma canonicalize_nonFinite :
    ∀ x : Json, hasNonFinite x = true →
      canonicalize x = .error .nonFiniteNumber
  | .null, h => by simp [hasNonFinite] at h
  | .bool _, h => by simp [hasNonFinite] at h
  | .int _, h => by simp [hasNonFinite] at h
  | .nan, _ => rfl
  | .inf _, _ => rfl
  | .str _, h => by simp [hasNonFinite] at h
  | .arr es, h => by
      have harr := canonArr_nonFinite es (by simpa [hasNonFinite] using h)
      simp [canonicalize, harr]
  | .obj fs, h => by
      have hobj := canonObj_nonFinite fs (by simpa [hasNonFinite] using h)
      simp [canonicalize, hobj]

lemma canonArr_nonFinite :
    ∀ es : List Json, hasNonFiniteArr es = true →
      canonArr es = .error .nonFiniteNumber
  | [], h => by simp [hasNonFiniteArr] at h
  | j :: js, h => by
      rcases (by simpa [hasNonFiniteArr] using h :
          hasNonFinite j = true ∨ hasNonFiniteArr js = true) with h1 | h2
      · have := canonicalize_nonFinite j h1
        simp [canonArr, this]
      · have := canonArr_nonFinite js h2
        cases hc : canonicalize j with
        | error e => simp [canonArr, hc, canonErr_unique e]
        | ok s => simp [canonArr, hc, this]

lemma canonObj_nonFinite :
    ∀ fs : List (String × Json), hasNonFiniteObj fs = true →
      canonObj fs = .error .nonFiniteNumber
  | [], h => by simp [hasNonFiniteObj] at h
  | (k, v) :: fs, h => by
      rcases (by simpa [hasNonFiniteObj] using h :
          hasNonFinite v = true ∨ hasNonFiniteObj fs = true) with h1 | h2
      · have := canonicalize_nonFinite v h1
        simp [canonObj, this]
      · have := canonObj_nonFinite fs h2
        cases hc : canonicalize v with
        | error e => simp [canonObj, hc, canonErr_unique e]
        | ok s => simp [canonObj, hc, this]

end

/-- C6: a value containing NaN or ±Infinity anywhere is rejected by the
canonicalizer with `CanonicalizationError` — it is never silently coerced
into output (cyclic references and unsupported host types are not
constructible in the `Json` model, so non-finite numbers are exactly the
representable offending inputs). -/
theorem canonicalize_rejects_nonFinite (x : Json)
    (h : hasNonFinite x = true) :
    canonicalize x = .error CanonicalizationError.nonFiniteNumber :=
  canonicalize_nonFinite x h

/-- Witness for C6: an object whose array payload contains NaN fails with
`CanonicalizationError`. -/
theorem canonicalize_rejects_nonFinite_witness :
    canonicalize (.obj [("a", .arr [.nan])]) =
      .error CanonicalizationError.nonFiniteNumber :=
  canonicalize_rejects_nonFinite (.obj [("a", .arr [.nan])]) rfl

/-- C7: a storage/read failure is reported in its own class and never as a
content-integrity failure. In the closure-zip script's verify loop, a
listed file that cannot be read yields `MISSING_FILE` for that path and
never a `HASH_MISMATCH` for it; in the ledger bundle model, a read failure
is a `BundleReadError` and never any `VerificationResult` (in particular
not `RECORD_HASH_MISMATCH`). -/
theorem read_failure_not_integrity_failure :
    (∀ (digestOf : String → Option String) (want : List (String × String))
        (rel d : String), (rel, d) ∈ want → digestOf rel = none →
      FileIssue.missingFile rel ∈ closureIssues digestOf want ∧
      ∀ w g, FileIssue.hashMismatch rel w g ∉ closureIssues digestOf want) ∧
    (∀ e : BundleReadError, verifyBundle (.error e) = .error e ∧
      ∀ res : VerificationResult, verifyBundle (.error e) ≠ .ok res) := by
  constructor
  · intro digestOf want rel d hmem hnone
    constructor
    · exact List.mem_filterMap.mpr ⟨(rel, d), hmem, by simp [issueFor, hnone]⟩
    · intro w g hmem'
      obtain ⟨⟨a, b⟩, _, hissue⟩ := List.mem_filterMap.mp hmem'
      cases hd : digestOf a with
      | none => simp [issueFor, hd] at hissue
      | some got =>
          simp only [issueFor, hd] at hissue
          by_cases hgb : got = b
          · simp [hgb] at hissue
          · simp [hgb] at hissue
            obtain ⟨ha, _, _⟩ := hissue
            rw [ha] at hd
            rw [hd] at hnone
            cases hnone
  · intro e
    exact ⟨rfl, fun res h => by cases h⟩

/-- Witness for C7: with a filesystem where nothing is readable and a
one-entry want-list, the loop reports `MISSING_FILE` and no
`HASH_MISMATCH`; a bundle read error stays a `BundleReadError`. -/
theorem read_failure_not_integrity_failure_witness :
    (FileIssue.missingFile "f" ∈ closureIssues (fun _ => none) [("f", "d")] ∧
     ∀ w g, FileIssue.hashMismatch "f" w g ∉
       closureIssues (fun _ => none) [("f", "d")]) ∧
    (verifyBundle (.error .unreadable) = .error .unreadable ∧
     ∀ res : VerificationResult,
       verifyBundle (.error .unreadable) ≠ .ok res) :=
  ⟨read_failure_not_integrity_failure.1 (fun _ => none) [("f", "d")] "f" "d"
      (by simp) rfl,
   read_failure_not_integrity_failure.2 BundleReadError.unreadable⟩

lemma resolve_keeps_work :
    ∀ (segs : List String) (acc work : List String),
      (∀ s ∈ segs, s ≠ "..") → work <+: acc →
      work <+: segs.foldl resolveStep acc := by
  intro segs
  induction segs with
  | nil => intro acc work _ hpre; exact hpre
  | cons s segs ih =>
      intro acc work hno hpre
      have hs : s ≠ ".." := hno s (List.mem_cons_self s segs)
      have hstep : work <+: resolveStep acc s := by
        unfold resolveStep
        by_cases h1 : s = "" ∨ s = "."
        · rw [if_pos h1]; exact hpre
        · rw [if_neg h1, if_neg hs]
          exact hpre.trans (List.prefix_append acc [s])
      exact ih (resolveStep acc s) work (fun t ht => hno t (List.mem_cons_of_mem s ht)) hstep

/-- C8: the extractor scans every member name before extracting; if any
name starts with "/" or contains ".." as a segment it aborts with exit
code 10 and extracts nothing, and every member of a scan-clean archive
resolves to a path that stays under the designated work directory. -/
theorem zip_scan_blocks_traversal :
    (∀ names : List String, (∃ n ∈ names, traversalRisk n = true) →
      extractAll names = .error 10) ∧
    (∀ names out : List String, extractAll names = .ok out →
      ∀ (work : List String) (n : String), n ∈ out →
        work <+: resolveUnder work n) := by
  constructor
  · intro names hex
    unfold extractAll
    rw [if_pos (List.any_eq_true.mpr hex)]
  · intro names out hok work n hmem
    unfold extractAll at hok
    by_cases hany : names.any traversalRisk
    · rw [if_pos hany] at hok; cases hok
    · rw [if_neg hany] at hok
      cases hok
      have hsafe : traversalRisk n = false := by
        cases h : traversalRisk n
        · rfl
        · exact absurd (List.any_eq_true.mpr ⟨n, hmem, h⟩) hany
      have hnodots : ∀ s ∈ splitSegs n, s ≠ ".." := by
        intro s hsm hcontra
        subst hcontra
        have hel : (splitSegs n).contains ".." = true :=
          List.elem_eq_true_of_mem hsm
        unfold traversalRisk at hsafe
        rw [hel] at hsafe
        simp at hsafe
      exact resolve_keeps_work (splitSegs n) work work hnodots (List.prefix_rfl)

/-- Witness for C8: a member named "../x" aborts extraction with exit code
10, and a clean member "a/b" extracted under ["w"] stays under ["w"]. -/
theorem zip_scan_blocks_traversal_witness :
    extractAll ["../x"] = .error 10 ∧
    (["w"] : List String) <+: resolveUnder ["w"] "a/b" :=
  ⟨zip_scan_blocks_traversal.1 ["../x"] ⟨"../x", by simp, by decide⟩,
   zip_scan_blocks_traversal.2 ["a/b"] ["a/b"] (by decide) ["w"] "a/b" (by simp)⟩

/-- C9: a missing sidecar yields the sentinel "(no_sidecar)" and does not
force failure — with the other checks passing, the overall result is still
"true"; only a present sidecar whose digest disagrees (SIDECAR_MATCH =
"false") forces OVERALL_PASS to "false". -/
theorem sidecar_absent_does_not_fail :
    (∀ z : String, sidecarMatch z none = "(no_sidecar)") ∧
    overallPass "(no_sidecar)" "true" "true" = "true" ∧
    (∀ z w : String, w ≠ z → sidecarMatch z (some w) = "false") ∧
    (∀ v f : String, overallPass "false" v f = "false") ∧
    (∀ m : String, m ≠ "false" → overallPass m "true" "true" = "true") := by
  refine ⟨fun _ => rfl, rfl, fun z w hne => ?_, fun v f => ?_, fun m hm => ?_⟩
  · simp [sidecarMatch, hne]
  · unfold overallPass
    by_cases hv : v ≠ "true"
    · simp [hv]
    · by_cases hf : f ≠ "true"
      · simp [hf]
      · simp [hv, hf]
  · simp [overallPass, hm]

/-- Witness for C9: concrete mismatching sidecar digest forces "false";
the no-sidecar sentinel together with passing checks yields "true". -/
theorem sidecar_absent_does_not_fail_witness :
    sidecarMatch "z" (some "w") = "false" ∧
    overallPass "false" "true" "true" = "false" ∧
    overallPass "(no_sidecar)" "true" "true" = "true" :=
  ⟨sidecar_absent_does_not_fail.2.2.1 "z" "w" (by decide),
   sidecar_absent_does_not_fail.2.2.2.1 "true" "true",
   sidecar_absent_does_not_fail.2.2.2.2 "(no_sidecar)" (by decide)⟩

/-- C10: `getVerificationStatus` is total with range exactly
{"OK", "FAIL", "MISSING"}: "OK" iff the field is strictly `true`, "FAIL"
iff strictly `false`, and "MISSING" for every other value (null,
undefined/absent, numbers, strings). -/
theorem getVerificationStatus_total (v : JSValue) :
    (getVerificationStatus v = "OK" ∨ getVerificationStatus v = "FAIL" ∨
     getVerificationStatus v = "MISSING") ∧
    (getVerificationStatus v = "OK" ↔ v = .jsBool true) ∧
    (getVerificationStatus v = "FAIL" ↔ v = .jsBool false) ∧
    (v ≠ .jsBool true → v ≠ .jsBool false →
      getVerificationStatus v = "MISSING") := by
  by_cases h1 : v = .jsBool true
  · subst h1
    refine ⟨Or.inl rfl, by simp [getVerificationStatus], ?_, ?_⟩
    · simp [getVerificationStatus]
    · intro hc; exact absurd rfl hc
  · by_cases h2 : v = .jsBool false
    · subst h2
      refine ⟨Or.inr (Or.inl rfl), ?_, ?_, ?_⟩
      · simp [getVerificationStatus]
      · simp [getVerificationStatus]
      · intro _ hc; exact absurd rfl hc
    · refine ⟨Or.inr (Or.inr ?_), ?_, ?_, ?_⟩
      · simp [getVerificationStatus, h1, h2]
      · simp [getVerificationStatus, h1, h2]
      · simp [getVerificationStatus, h1, h2]
      · intro _ _; simp [getVerificationStatus, h1, h2]

/-- Witness for C10 at `null`: the status is "MISSING" and the whole
characterization holds at this concrete value. -/
theorem getVerificationStatus_total_witness :
    (getVerificationStatus .jsNull = "OK" ∨
     getVerificationStatus .jsNull = "FAIL" ∨
     getVerificationStatus .jsNull = "MISSING") ∧
    (getVerificationStatus .jsNull = "OK" ↔ JSValue.jsNull = .jsBool true) ∧
    (getVerificationStatus .jsNull = "FAIL" ↔ JSValue.jsNull = .jsBool false) ∧
    (JSValue.jsNull ≠ .jsBool true → JSValue.jsNull ≠ .jsBool false →
      getVerificationStatus .jsNull = "MISSING") :=
  getVerificationStatus_total .jsNull
